import Mathlib

/-!
Verification of the layout/style transfer engine of `main.py` (DOCX
layout copier).

The development shallowly embeds the pure core of the program:

* the XML element trees handled through `xml.etree.ElementTree`
  (`XElem` below: tag, attribute list, optional text, optional tail,
  ordered children),
* the artistic page-border patcher (`_deepcopy`,
  `_extract_pgBorders_from_source`, `_insert_pgBorders_schema_order`,
  `_set_pgBorders_in_all_sections`, `patch_art_page_borders`),
* the style orchestration counter (`try_organizer_copy_all_styles`)
  and its template fallback trigger in `transfer_layout`,
* the scoped temporary-file semantics of `copy_styles_via_template`,
* the section index-mapping policy of `transfer_layout`,
* the archive rewrite step (entry list of the zip package) together
  with the write-to-sibling-then-rename replacement,
* the path-validation prologue of `transfer_layout`.

Machine integers do not occur in this core; indices are modelled with
`Nat`, and the single Python `-1` sentinel (`after_idx`) with `Int`,
exactly as the source computes it.  Mutation of the element tree is
modelled by pure tree rebuilding; Python object identity, which only
matters for the deep-copy helper, is modelled separately by trees
carrying allocation identifiers (`XElemId`).
-/

/-- An XML element as handled by `xml.etree.ElementTree` in `main.py`:
tag, attribute list, optional text, optional tail, and the ordered list
of child elements. -/
inductive XElem : Type where
  | mk : String → List (String × String) → Option String → Option String →
      List XElem → XElem

/-- Tag of an element. -/
def XElem.tag : XElem → String
  | .mk t _ _ _ _ => t

/-- Attribute list of an element. -/
def XElem.attrib : XElem → List (String × String)
  | .mk _ a _ _ _ => a

/-- Text of an element. -/
def XElem.text : XElem → Option String
  | .mk _ _ tx _ _ => tx

/-- Tail of an element. -/
def XElem.tail : XElem → Option String
  | .mk _ _ _ tl _ => tl

/-- Children of an element. -/
def XElem.children : XElem → List XElem
  | .mk _ _ _ _ c => c

/-- Namespace marker `W_NS` of `main.py`: the WordprocessingML namespace
URI wrapped in braces, prepended to every qualified tag. -/
def W_NS : String :=
  "\x7bhttp://schemas.openxmlformats.org/wordprocessingml/2006/main\x7d"

/-- Qualified tag of the `w:pgBorders` fragment. -/
def pgBordersTag : String := W_NS ++ "pgBorders"

/-- Qualified tag of `w:body`. -/
def bodyTag : String := W_NS ++ "body"

/-- Qualified tag of `w:p`. -/
def pTag : String := W_NS ++ "p"

/-- Qualified tag of `w:pPr`. -/
def pPrTag : String := W_NS ++ "pPr"

/-- Qualified tag of `w:sectPr`. -/
def sectPrTag : String := W_NS ++ "sectPr"

/-- Tag set `after_tags` of `_insert_pgBorders_schema_order`:
`w:type`, `w:pgSz`, `w:pgMar`, `w:paperSrc`. -/
def afterTags : List String :=
  [W_NS ++ "type", W_NS ++ "pgSz", W_NS ++ "pgMar", W_NS ++ "paperSrc"]

/-- Tag set `before_tags` of `_insert_pgBorders_schema_order`:
`w:lnNumType`, `w:pgNumType`, `w:cols`, `w:docGrid`. -/
def beforeTags : List String :=
  [W_NS ++ "lnNumType", W_NS ++ "pgNumType", W_NS ++ "cols", W_NS ++ "docGrid"]

/-- Recursive worker of `_deepcopy`, rebuilding a list of elements and,
inside each element, its child list. -/
def deepcopyList : List XElem → List XElem
  | [] => []
  | XElem.mk t a tx tl cs :: rest =>
    XElem.mk t a tx tl (deepcopyList cs) :: deepcopyList rest
termination_by l => sizeOf l
decreasing_by
  all_goals (simp; try omega)

/-- Helper `_deepcopy` of `main.py`: build a new element with the same
tag and attributes, append deep copies of all children, and carry over
text and tail. -/
def _deepcopy (e : XElem) : XElem :=
  match e with
  | .mk t a tx tl cs => .mk t a tx tl (deepcopyList cs)

/-- First child of `e` carrying tag `tg`; this is `e.find(tg)` of
ElementTree restricted to a direct-child tag path, as used in
`main.py`. -/
def findChild (tg : String) (e : XElem) : Option XElem :=
  e.children.find? (fun c => c.tag == tg)

/-- Python's `list.insert(n, a)` as ElementTree's `insert` uses it:
insert at index `n`, appending when `n` is at least the length. -/
def insertAt (n : Nat) (a : XElem) : List XElem → List XElem
  | [] => [a]
  | x :: xs =>
    match n with
    | 0 => a :: x :: xs
    | Nat.succ m => x :: insertAt m a xs

/-- Effect of `sectpr.remove(existing)` where
`existing = sectpr.find(...)`: drop the first child satisfying `p`. -/
def removeFirst (p : XElem → Bool) : List XElem → List XElem
  | [] => []
  | x :: xs => if p x then xs else x :: removeFirst p xs

/-- The `after_idx` loop of `_insert_pgBorders_schema_order`: running
index `i`, accumulator updated to `i` whenever the child's tag lies in
`after_tags` and `i` exceeds the accumulator. -/
def after_idx_loop : List XElem → Nat → Int → Int
  | [], _, acc => acc
  | ch :: rest, i, acc =>
    after_idx_loop rest (i + 1)
      (if decide (ch.tag ∈ afterTags) ∧ (i : Int) > acc then (i : Int) else acc)

/-- Value of `after_idx` over a child list (Python starts from `-1`). -/
def compute_after_idx (cs : List XElem) : Int := after_idx_loop cs 0 (-1)

/-- The `before_idx` loop of `_insert_pgBorders_schema_order`: index of
the first child whose tag lies in `before_tags`, or the length of the
list when none does (Python starts from `len(children)` and breaks at
the first hit). -/
def before_idx_scan : List XElem → Nat
  | [] => 0
  | ch :: rest =>
    if decide (ch.tag ∈ beforeTags) then 0 else before_idx_scan rest + 1

/-- Value `insert_idx = min(after_idx + 1, before_idx)` over a child
list. -/
def insertion_index (cs : List XElem) : Nat :=
  (min (compute_after_idx cs + 1) ((before_idx_scan cs : Int))).toNat

/-- Child list of a section-properties element after the patcher's
removal prologue (`existing = sectpr.find(...)`; if present,
`sectpr.remove(existing)`). -/
def patcher_children (sectpr : XElem) : List XElem :=
  let cs := sectpr.children
  if cs.any (fun c => c.tag == pgBordersTag) then
    removeFirst (fun c => c.tag == pgBordersTag) cs
  else cs

/-- Insertion index the patcher computes for a section-properties
element, taken over the child list after the removal prologue. -/
def patcher_insertion_index (sectpr : XElem) : Nat :=
  insertion_index (patcher_children sectpr)

/-- Function `_insert_pgBorders_schema_order` of `main.py`: remove any
existing `w:pgBorders` child, then insert a deep copy of
`pgBorders_elem` at `min(after_idx + 1, before_idx)`. -/
def _insert_pgBorders_schema_order (sectpr : XElem) (pgBorders_elem : XElem) :
    XElem :=
  let cs := patcher_children sectpr
  XElem.mk sectpr.tag sectpr.attrib sectpr.text sectpr.tail
    (insertAt (insertion_index cs) (_deepcopy pgBorders_elem) cs)

/-- Elements of a forest in document order, each followed by its own
descendants; `descendantsList (root.children)` is the node set that
ElementTree's `.//` path steps scan. -/
def descendantsList : List XElem → List XElem
  | [] => []
  | XElem.mk t a tx tl cs :: rest =>
    XElem.mk t a tx tl cs :: (descendantsList cs ++ descendantsList rest)
termination_by l => sizeOf l
decreasing_by
  all_goals (simp; try omega)

/-- Result of `root.findall(".//w:body/w:sectPr")`: the `w:sectPr`
children of every `w:body` element below the root. -/
def findallBodySectPr (root : XElem) : List XElem :=
  (descendantsList root.children).flatMap (fun d =>
    if d.tag == bodyTag then d.children.filter (fun c => c.tag == sectPrTag)
    else [])

/-- Result of `root.findall(".//w:p/w:pPr/w:sectPr")`: the `w:sectPr`
children of `w:pPr` children of every `w:p` element below the root. -/
def findallParaSectPr (root : XElem) : List XElem :=
  (descendantsList root.children).flatMap (fun d =>
    if d.tag == pTag then
      d.children.flatMap (fun pr =>
        if pr.tag == pPrTag then
          pr.children.filter (fun c => c.tag == sectPrTag)
        else [])
    else [])

/-- Body-level attempt of `_extract_pgBorders_from_source`: the last
`sectprs[-1]` of the body-level findall, probed with `find` for the
fragment (`none` both when there is no body-level `w:sectPr` and when
the last one has no fragment). -/
def _extract_body_step (root : XElem) : Option XElem :=
  match (findallBodySectPr root).getLast? with
  | some sp => findChild pgBordersTag sp
  | none => none

/-- Paragraph-level attempt of `_extract_pgBorders_from_source`: the
last `sectprs[-1]` of the paragraph-level findall, probed with `find`
for the fragment. -/
def _extract_para_step (root : XElem) : Option XElem :=
  match (findallParaSectPr root).getLast? with
  | some sp => findChild pgBordersTag sp
  | none => none

/-- Function `_extract_pgBorders_from_source` of `main.py`, applied to
the parsed body XML of the source package: return the body-level
attempt when it produced a fragment, else the paragraph-level
attempt. -/
def _extract_pgBorders_from_source (root : XElem) : Option XElem :=
  match _extract_body_step root with
  | some pg => some pg
  | none => _extract_para_step root

/-- Tree rebuilding performed by the two patch loops of
`_set_pgBorders_in_all_sections`: every `w:sectPr` child of a `w:body`
element, and every `w:sectPr` child of a `w:pPr` child of a `w:p`
element, receives `_insert_pgBorders_schema_order`.  `gp` and `par` are
the tags of the grandparent and parent of the elements in the list.
Sections are rebuilt bottom-up, which agrees with the source's two
sequential in-place loops on every tree in which the inserted fragment
itself holds no section-properties structure. -/
def patchForest (pg : XElem) (gp par : String) : List XElem → List XElem
  | [] => []
  | XElem.mk t a tx tl cs :: rest =>
    let e2 := XElem.mk t a tx tl (patchForest pg par t cs)
    let e3 :=
      if (par == bodyTag ∨ (gp == pTag ∧ par == pPrTag)) ∧ t == sectPrTag then
        _insert_pgBorders_schema_order e2 pg
      else e2
    e3 :: patchForest pg gp par rest
termination_by l => sizeOf l
decreasing_by
  all_goals (simp; try omega)

/-- Whole-document mutation of `_set_pgBorders_in_all_sections`
before the archive rewrite. -/
def patchDocument (pg : XElem) (root : XElem) : XElem :=
  match root with
  | .mk t a tx tl cs => .mk t a tx tl (patchForest pg "" t cs)

/-- Function `_set_pgBorders_in_all_sections` of `main.py`, restricted
to its tree-level effect: `none` models the `return False` taken when
neither patch loop ran (no section-properties element at body or
paragraph level), in which case no archive rewrite happens; `some`
carries the mutated tree that the rewrite then serializes. -/
def _set_pgBorders_in_all_sections (root : XElem) (pg : XElem) :
    Option XElem :=
  if (findallBodySectPr root).isEmpty ∧ (findallParaSectPr root).isEmpty then
    none
  else some (patchDocument pg root)

/-- Function `patch_art_page_borders` of `main.py` on parsed body XML:
`none` models `return False` with the target package untouched, `some`
models `return True` together with the mutated target tree. -/
def patch_art_page_borders (srcRoot : XElem) (tgtRoot : XElem) :
    Option XElem :=
  match _extract_pgBorders_from_source srcRoot with
  | none => none
  | some pg => _set_pgBorders_in_all_sections tgtRoot pg

/-- Number of direct `w:pgBorders` children in a child list. -/
def pgCount (cs : List XElem) : Nat :=
  (cs.filter (fun c => c.tag == pgBordersTag)).length

/-- Number of direct `w:pgBorders` children of an element. -/
def pgChildCount (e : XElem) : Nat := pgCount e.children

/-- Extraction rule exactly as claim C4 words it, for comparison with
the source function: last body-level `w:sectPr`, its fragment if it has
one; otherwise the last paragraph-embedded `w:sectPr` *that contains* a
fragment. -/
def spec_para_fallback_rule (root : XElem) : Option XElem :=
  match ((findallParaSectPr root).filter
      (fun sp => (findChild pgBordersTag sp).isSome)).getLast? with
  | some sp => findChild pgBordersTag sp
  | none => none

/-- Body-level step of the claimed extraction rule, falling back to
`spec_para_fallback_rule`. -/
def spec_extract_rule (root : XElem) : Option XElem :=
  match (findallBodySectPr root).getLast? with
  | some sp =>
    match findChild pgBordersTag sp with
    | some pg => some pg
    | none => spec_para_fallback_rule root
  | none => spec_para_fallback_rule root

/-- Amended extraction rule: last body-level `w:sectPr`, its fragment
if it has one; otherwise the last paragraph-embedded `w:sectPr`, its
fragment if it has one; otherwise nothing. -/
def amended_extract_rule (root : XElem) : Option XElem :=
  match (findallBodySectPr root).getLast? with
  | some sp =>
    match findChild pgBordersTag sp with
    | some pg => some pg
    | none => ((findallParaSectPr root).getLast?).bind (findChild pgBordersTag)
  | none => ((findallParaSectPr root).getLast?).bind (findChild pgBordersTag)

/-- Serialization of an attribute list, part of the model of
`ET.tostring`. -/
def serializeAttrs : List (String × String) → String
  | [] => ""
  | (k, v) :: rest => " " ++ k ++ "=\"" ++ v ++ "\"" ++ serializeAttrs rest

/-- Serialization of a forest, part of the model of `ET.tostring`. -/
def serializeList : List XElem → String
  | [] => ""
  | XElem.mk t a tx tl cs :: rest =>
    "<" ++ t ++ serializeAttrs a ++ ">" ++ tx.getD "" ++ serializeList cs ++
      "</" ++ t ++ ">" ++ tl.getD "" ++ serializeList rest
termination_by l => sizeOf l
decreasing_by
  all_goals (simp; try omega)

/-- Model of `ET.tostring(root, encoding="utf-8", xml_declaration=True)`
in `_set_pgBorders_in_all_sections`. -/
def ET_tostring (root : XElem) : String :=
  "<?xml version=\"1.0\" encoding=\"utf-8\"?>" ++ serializeList [root]

/-- A zip package as the patcher sees it: the ordered entry list of
`zin.infolist()`, each entry a name paired with its bytes. -/
abbrev Archive := List (String × String)

/-- Entry-by-entry rewrite loop of `_set_pgBorders_in_all_sections`:
every entry is copied unchanged except `word/document.xml`, whose data
is replaced by the serialized mutated tree. -/
def rewriteArchive (ar : Archive) (newDoc : String) : Archive :=
  ar.map (fun entry =>
    if entry.1 == "word/document.xml" then (entry.1, newDoc) else entry)

/-- File-system contents visible at the paths involved in the package
rewrite: an association of paths to archives. -/
abbrev FileSys := List (String × Archive)

/-- Contents at path `p`. -/
def lookupFile (p : String) (fs : FileSys) : Option Archive :=
  (fs.find? (fun e => e.1 == p)).map Prod.snd

/-- The three file-system states an observer can see during the rewrite
of `_set_pgBorders_in_all_sections`: before the sibling temp file
`target + ".tmp"` is written, after it is fully written, and after
`os.replace` atomically renames it over the target. -/
def atomicRewriteStates (targetPath : String) (oldAr newAr : Archive) :
    List FileSys :=
  [[(targetPath, oldAr)],
   [(targetPath, oldAr), (targetPath ++ ".tmp", newAr)],
   [(targetPath, newAr)]]

/-- One source style as `try_organizer_copy_all_styles` probes it:
outcome of reading `NameLocal` (`none` models the read raising),
outcome of reading `Name`, and whether `OrganizerCopy` succeeds for
it. -/
structure StyleStub where
  nameLocalAttr : Option String
  nameAttr : Option String
  organizerCopyOk : Bool
deriving DecidableEq

/-- Python truthiness of the `name` variable: a string is truthy
exactly when non-empty; `none` models the initial `None`. -/
def truthy : Option String → Bool
  | none => false
  | some s => s ≠ ""

/-- The name-resolution loop of `try_organizer_copy_all_styles`: start
from `None`, read `NameLocal` (keeping the previous value if the read
raises), stop if truthy, else read `Name` the same way. -/
def resolveName (st : StyleStub) : Option String :=
  let n0 : Option String := none
  let n1 : Option String :=
    match st.nameLocalAttr with
    | some v => some v
    | none => n0
  if truthy n1 then n1
  else
    match st.nameAttr with
    | some v => some v
    | none => n1

/-- Whether one loop iteration increments `moved`: the resolved name is
truthy (otherwise `continue`) and `OrganizerCopy` does not raise. -/
def styleCounted (st : StyleStub) : Bool :=
  truthy (resolveName st) && st.organizerCopyOk

/-- Function `try_organizer_copy_all_styles` of `main.py`: the value of
`moved` after the loop over all source styles. -/
def try_organizer_copy_all_styles (styles : List StyleStub) : Nat :=
  styles.foldl (fun moved st => if styleCounted st then moved + 1 else moved) 0

/-- Style phase of `transfer_layout`: run the organizer copy, then run
`copy_styles_via_template` exactly when `moved == 0`.  First component:
`moved`; second component: whether the template fallback executed. -/
def style_transfer_phase (styles : List StyleStub) : Nat × Bool :=
  let moved := try_organizer_copy_all_styles styles
  (moved, moved == 0)

/-- Presence of the temporary template snapshot `style_source_tmp.dotx`
on disk. -/
structure TmpFs where
  tmpExists : Bool
deriving DecidableEq

/-- Host behaviour `copy_styles_via_template` can encounter: whether
`SaveCopyAs` to the `.dotx` path succeeds, whether the `save_docx`
fallback succeeds, and whether `CopyStylesFromTemplate` succeeds. -/
structure ComBehavior where
  saveCopyAsOk : Bool
  saveDocxOk : Bool
  copyStylesOk : Bool
deriving DecidableEq

/-- A `try/finally` block over the snapshot file state: run the body,
then run the cleanup on the resulting state whatever the outcome was. -/
def tryFinallyFs (body : TmpFs → Except String Unit × TmpFs)
    (cleanup : TmpFs → TmpFs) (s : TmpFs) : Except String Unit × TmpFs :=
  let r := body s
  (r.1, cleanup r.2)

/-- Body of `copy_styles_via_template`: create the snapshot via
`SaveCopyAs`, falling back to `save_docx` (whose failure propagates),
then apply `CopyStylesFromTemplate` (whose failure propagates). -/
def templateBody (b : ComBehavior) (s : TmpFs) : Except String Unit × TmpFs :=
  if b.saveCopyAsOk then
    (if b.copyStylesOk then Except.ok ()
     else Except.error "CopyStylesFromTemplate failed", ⟨true⟩)
  else if b.saveDocxOk then
    (if b.copyStylesOk then Except.ok ()
     else Except.error "CopyStylesFromTemplate failed", ⟨true⟩)
  else (Except.error "save_docx failed", s)

/-- The `finally` clause of `copy_styles_via_template`: `os.remove` of
the snapshot, with any error swallowed; afterwards the file is gone. -/
def osRemoveBestEffort (_ : TmpFs) : TmpFs := ⟨false⟩

/-- Function `copy_styles_via_template` of `main.py` over the snapshot
file state. -/
def copy_styles_via_template (b : ComBehavior) (s : TmpFs) :
    Except String Unit × TmpFs :=
  tryFinallyFs (templateBody b) osRemoveBestEffort s

/-- Source-section choice of `transfer_layout` for target section `i`:
`s_idx = i if (section_map and i <= src_count) else 1`. -/
def select_source_section (section_map : Bool) (src_count i : Nat) : Nat :=
  if section_map = true ∧ i ≤ src_count then i else 1

/-- Interactions with the document host that `transfer_layout` performs
right after path validation. -/
inductive HostAction : Type where
  | coInit : HostAction
  | dispatchWordApp : HostAction
deriving DecidableEq

/-- Validation prologue of `transfer_layout`: check that the source
path then the target path name existing files, raising
`FileNotFoundError` before `pythoncom` and Word are touched; on success
the host is started. -/
def transfer_layout_validate (sourceExists targetExists : Bool) :
    Except String Unit × List HostAction :=
  if sourceExists = false then (Except.error "Source not found", [])
  else if targetExists = false then (Except.error "Target not found", [])
  else (Except.ok (), [HostAction.coInit, HostAction.dispatchWordApp])

/-- An XML element paired with Python object identities: every node
carries the id of the `ET.Element` object holding it.  `_deepcopy`
allocates fresh objects, modelled by drawing ids from a counter larger
than every id in the tree it copies. -/
inductive XElemId : Type where
  | mk : Nat → String → List (String × String) → Option String → Option String →
      List XElemId → XElemId

/-- Forest of identified elements with ids forgotten. -/
def stripList : List XElemId → List XElem
  | [] => []
  | XElemId.mk _ t a tx tl cs :: rest =>
    XElem.mk t a tx tl (stripList cs) :: stripList rest
termination_by l => sizeOf l
decreasing_by
  all_goals (simp; try omega)

/-- Identified element with ids forgotten: its structural content. -/
def stripIds (e : XElemId) : XElem :=
  match e with
  | .mk _ t a tx tl cs => XElem.mk t a tx tl (stripList cs)

/-- Object ids occurring in a forest. -/
def idsList : List XElemId → List Nat
  | [] => []
  | XElemId.mk i _ _ _ _ cs :: rest => i :: (idsList cs ++ idsList rest)
termination_by l => sizeOf l
decreasing_by
  all_goals (simp; try omega)

/-- Object ids occurring in an identified element's tree. -/
def idsOfTree (e : XElemId) : List Nat :=
  match e with
  | .mk i _ _ _ _ cs => i :: idsList cs

/-- Worker of the identity-aware `_deepcopy`: rebuild a forest drawing
fresh object ids from a counter, returning the new forest and the next
free id. -/
def dcIdsList (n : Nat) : List XElemId → List XElemId × Nat
  | [] => ([], n)
  | XElemId.mk _ t a tx tl cs :: rest =>
    let r1 := dcIdsList (n + 1) cs
    let r2 := dcIdsList r1.2 rest
    (XElemId.mk n t a tx tl r1.1 :: r2.1, r2.2)
termination_by l => sizeOf l
decreasing_by
  all_goals (simp; try omega)

/-- Helper `_deepcopy` of `main.py` with object allocation made
explicit: the copy of `e` built from fresh ids starting at `fresh`,
together with the next free id. -/
def _deepcopy_alloc (e : XElemId) (fresh : Nat) : XElemId × Nat :=
  match e with
  | .mk _ t a tx tl cs =>
    let r := dcIdsList (fresh + 1) cs
    (XElemId.mk fresh t a tx tl r.1, r.2)

/-! ## Basic lemmas -/

/-- The worker of `_deepcopy` is the identity on pure forests. -/
theorem deepcopyList_eq (l : List XElem) : deepcopyList l = l := by
  induction l using deepcopyList.induct with
  | case1 => simp [deepcopyList]
  | case2 t a tx tl cs rest ih1 ih2 => simp [deepcopyList, ih1, ih2]

/-- On pure trees, `_deepcopy` returns a structurally equal tree. -/
theorem deepcopy_eq (e : XElem) : _deepcopy e = e := by
  cases e
  simp [_deepcopy, deepcopyList_eq]

/-! ## C5: section index-mapping policy -/

/-- C5: in index-mapped mode (`section_map = true`), target section `i`
copies from source section `i` when `i` does not exceed the source
section count and from source section 1 otherwise; in broadcast mode
(`section_map = false`), every target section copies from source
section 1. -/
theorem section_mapping_policy (src_count i : Nat) :
    select_source_section true src_count i = (if i ≤ src_count then i else 1) ∧
    select_source_section false src_count i = 1 := by
  constructor
  · by_cases h : i ≤ src_count <;> simp [select_source_section, h]
  · simp [select_source_section]

/-! ## C6: style fallback trigger -/

/-- The `moved` counter equals the number of styles whose name resolves
to a truthy value and whose organizer copy succeeds. -/
theorem organizer_moved_eq_filter (styles : List StyleStub) :
    try_organizer_copy_all_styles styles =
      (styles.filter (fun st => styleCounted st)).length := by
  unfold try_organizer_copy_all_styles
  suffices h : ∀ acc : Nat,
      styles.foldl (fun moved st => if styleCounted st then moved + 1 else moved)
          acc =
        acc + (styles.filter (fun st => styleCounted st)).length by
    simpa using h 0
  induction styles with
  | nil => simp
  | cons st rest ih =>
    intro acc
    by_cases h : styleCounted st = true
    · simp [h, ih]
      omega
    · simp [h, ih]

/-- C6: the template fallback of the style phase executes exactly when
the count of successful per-style organizer copies is zero; with at
least one success it never executes. -/
theorem style_fallback_iff_zero (styles : List StyleStub) :
    (style_transfer_phase styles).2 = true ↔
      (styles.filter (fun st => styleCounted st)).length = 0 := by
  simp [style_transfer_phase, organizer_moved_eq_filter]

/-! ## C7: scoped template snapshot -/

/-- C7: `copy_styles_via_template` removes the temporary template
snapshot on every exit path — the file is gone after the call whether
the operation succeeded or raised — and it succeeds exactly when a
snapshot could be written and applying it succeeded. -/
theorem template_snapshot_always_removed (b : ComBehavior) (s : TmpFs) :
    (copy_styles_via_template b s).2.tmpExists = false ∧
    ((copy_styles_via_template b s).1 = Except.ok () ↔
      ((b.saveCopyAsOk = true ∨ b.saveDocxOk = true) ∧
        b.copyStylesOk = true)) := by
  cases b with
  | mk sc sd cp =>
    cases sc <;> cases sd <;> cases cp <;>
      simp [copy_styles_via_template, tryFinallyFs, templateBody,
        osRemoveBestEffort]

/-! ## C9: path validation before host interaction -/

/-- C9: when the source or the target path names no existing file,
`transfer_layout` fails with a not-found error and performs no
interaction with the document host. -/
theorem validate_paths_before_host (se te : Bool)
    (h : se = false ∨ te = false) :
    (∃ msg, (transfer_layout_validate se te).1 = Except.error msg) ∧
    (transfer_layout_validate se te).2 = [] := by
  cases se with
  | false => exact ⟨⟨"Source not found", rfl⟩, rfl⟩
  | true =>
    cases te with
    | false => exact ⟨⟨"Target not found", rfl⟩, rfl⟩
    | true => simp at h

/-- Witness for C9 at a missing source path. -/
theorem validate_paths_before_host_witness :
    ((false : Bool) = false ∨ (true : Bool) = false) ∧
    ((∃ msg, (transfer_layout_validate false true).1 = Except.error msg) ∧
      (transfer_layout_validate false true).2 = []) :=
  ⟨Or.inl rfl, validate_paths_before_host false true (Or.inl rfl)⟩

/-! ## C1: schema-order insertion index -/

/-- The `after_idx` accumulator never decreases. -/
theorem after_idx_loop_ge (cs : List XElem) (i : Nat) (acc : Int) :
    acc ≤ after_idx_loop cs i acc := by
  induction cs generalizing i acc with
  | nil => simp [after_idx_loop]
  | cons ch rest ih =>
    simp only [after_idx_loop]
    refine le_trans ?_ (ih (i + 1) _)
    split
    · next h => exact le_of_lt h.2
    · exact le_refl acc

/-- Any child with a tag in `after_tags` bounds `after_idx` from
below. -/
theorem after_idx_loop_ge_mem (cs : List XElem) (i : Nat) (acc : Int)
    (k : Nat) (hk : k < cs.length)
    (hmem : (cs.get ⟨k, hk⟩).tag ∈ afterTags) :
    ((i + k : Nat) : Int) ≤ after_idx_loop cs i acc := by
  induction cs generalizing i acc k with
  | nil => simp at hk
  | cons ch rest ih =>
    cases k with
    | zero =>
      simp only [List.get] at hmem
      simp only [after_idx_loop]
      refine le_trans ?_ (after_idx_loop_ge rest (i + 1) _)
      by_cases hcond : (i : Int) > acc
      · simp [hmem, hcond]
      · have hge : (i : Int) ≤ acc := not_lt.mp hcond
        split
        · next h => simp
        · next h => simpa using hge
    | succ m =>
      simp only [after_idx_loop]
      have := ih (i + 1) (if decide (ch.tag ∈ afterTags) ∧ (i : Int) > acc
          then (i : Int) else acc) m (by simpa using Nat.lt_of_succ_lt_succ hk)
        (by simpa using hmem)
      calc ((i + (m + 1) : Nat) : Int) = ((i + 1 + m : Nat) : Int) := by
            push_cast; ring
        _ ≤ _ := this

/-- With no `after_tags` child, the accumulator is returned unchanged. -/
theorem after_idx_loop_eq_acc (cs : List XElem) (i : Nat) (acc : Int)
    (h : ∀ ch ∈ cs, ch.tag ∉ afterTags) :
    after_idx_loop cs i acc = acc := by
  induction cs generalizing i acc with
  | nil => rfl
  | cons ch rest ih =>
    have hch : ch.tag ∉ afterTags := h ch (List.mem_cons_self ch rest)
    simp only [after_idx_loop, hch]
    simpa using ih (i + 1) acc (fun c hc => h c (List.mem_cons_of_mem ch hc))

/-- Any child with a tag in `before_tags` bounds `before_idx` from
above. -/
theorem before_idx_scan_le_mem (cs : List XElem) (k : Nat)
    (hk : k < cs.length) (hmem : (cs.get ⟨k, hk⟩).tag ∈ beforeTags) :
    before_idx_scan cs ≤ k := by
  induction cs generalizing k with
  | nil => simp at hk
  | cons ch rest ih =>
    cases k with
    | zero =>
      simp only [List.get] at hmem
      simp [before_idx_scan, hmem]
    | succ m =>
      simp only [before_idx_scan]
      split
      · omega
      · have := ih m (by simpa using Nat.lt_of_succ_lt_succ hk)
          (by simpa using hmem)
        omega

/-- With no `before_tags` child, `before_idx` is the list length. -/
theorem before_idx_scan_eq_length (cs : List XElem)
    (h : ∀ ch ∈ cs, ch.tag ∉ beforeTags) :
    before_idx_scan cs = cs.length := by
  induction cs with
  | nil => rfl
  | cons ch rest ih =>
    have hch : ch.tag ∉ beforeTags := h ch (List.mem_cons_self ch rest)
    simp only [before_idx_scan, hch, decide_eq_true_eq, if_neg]
    simp [ih (fun c hc => h c (List.mem_cons_of_mem ch hc))]

/-- Indices free of `before_tags` children up to `i` force `before_idx`
past `i`. -/
theorem before_idx_scan_gt (cs : List XElem) (i : Nat)
    (h : ∀ j (hj : j < cs.length), j ≤ i → (cs.get ⟨j, hj⟩).tag ∉ beforeTags)
    (hi : i < cs.length) : i < before_idx_scan cs := by
  induction cs generalizing i with
  | nil => simp at hi
  | cons ch rest ih =>
    have hch : ch.tag ∉ beforeTags := by
      have := h 0 (by simp) (Nat.zero_le i)
      simpa using this
    rw [show before_idx_scan (ch :: rest) = before_idx_scan rest + 1 from by
      simp [before_idx_scan, hch]]
    cases i with
    | zero => omega
    | succ m =>
      have := ih m
        (fun j hj hle => by
          have := h (j + 1) (by simpa using Nat.succ_lt_succ hj)
            (Nat.succ_le_succ hle)
          simpa using this)
        (by simpa using Nat.lt_of_succ_lt_succ hi)
      omega

/-- C1 (amended): for every section-properties element, over the child
list left by the removal prologue, the patcher's insertion index (i) is
at most the index of every `before`-group child, (ii) is at least one
past every `after`-group child that is not preceded, at an equal or
smaller index, by a `before`-group child, and (iii) equals 0 when
neither group is present. -/
theorem insertion_index_bounds (sectpr : XElem) :
    (∀ i (hi : i < (patcher_children sectpr).length),
        ((patcher_children sectpr).get ⟨i, hi⟩).tag ∈ beforeTags →
        patcher_insertion_index sectpr ≤ i) ∧
    (∀ i (hi : i < (patcher_children sectpr).length),
        ((patcher_children sectpr).get ⟨i, hi⟩).tag ∈ afterTags →
        (∀ j (hj : j < (patcher_children sectpr).length), j ≤ i →
            ((patcher_children sectpr).get ⟨j, hj⟩).tag ∉ beforeTags) →
        i + 1 ≤ patcher_insertion_index sectpr) ∧
    ((∀ ch ∈ patcher_children sectpr,
        ch.tag ∉ afterTags ∧ ch.tag ∉ beforeTags) →
      patcher_insertion_index sectpr = 0) := by
  refine ⟨?_, ?_, ?_⟩
  · intro i hi hmem
    have hb : before_idx_scan (patcher_children sectpr) ≤ i :=
      before_idx_scan_le_mem _ i hi hmem
    unfold patcher_insertion_index insertion_index
    omega
  · intro i hi hmem hnob
    have ha : ((0 + i : Nat) : Int) ≤
        after_idx_loop (patcher_children sectpr) 0 (-1) :=
      after_idx_loop_ge_mem _ 0 (-1) i hi hmem
    have ha2 : (i : Int) ≤ after_idx_loop (patcher_children sectpr) 0 (-1) := by
      simpa using ha
    have hb : i < before_idx_scan (patcher_children sectpr) :=
      before_idx_scan_gt _ i hnob hi
    unfold patcher_insertion_index insertion_index compute_after_idx
    omega
  · intro h
    have ha : after_idx_loop (patcher_children sectpr) 0 (-1) = -1 :=
      after_idx_loop_eq_acc _ 0 (-1) (fun ch hch => (h ch hch).1)
    have hb : before_idx_scan (patcher_children sectpr) =
        (patcher_children sectpr).length :=
      before_idx_scan_eq_length _ (fun ch hch => (h ch hch).2)
    unfold patcher_insertion_index insertion_index compute_after_idx
    omega

/-- Section-properties element with a `before`-group child (`lnNumType`)
in front of an `after`-group child (`pgSz`). -/
def exC1_sectpr : XElem :=
  XElem.mk sectPrTag [] none none
    [XElem.mk (W_NS ++ "lnNumType") [] none none [],
     XElem.mk (W_NS ++ "pgSz") [] none none []]

/-- C1 counterexample: on a section-properties element whose children
are `lnNumType` then `pgSz`, the `after`-group child `pgSz` sits at
index 1, so the claimed bound demands an insertion index of at least 2,
but the patcher computes 0 (the clamp to the first `before`-group child
wins). -/
theorem insertion_index_bounds_counterexample :
    (patcher_children exC1_sectpr).map XElem.tag =
      [W_NS ++ "lnNumType", W_NS ++ "pgSz"] ∧
    (W_NS ++ "pgSz") ∈ afterTags ∧
    patcher_insertion_index exC1_sectpr = 0 ∧
    ¬ (1 + 1 ≤ patcher_insertion_index exC1_sectpr) := by
  refine ⟨by decide, by decide, by decide, by decide⟩

/-- Section-properties element with a `pgMar` child then a `cols'
child, schema-ordered. -/
def exC1w_sectpr : XElem :=
  XElem.mk sectPrTag [] none none
    [XElem.mk (W_NS ++ "pgMar") [] none none [],
     XElem.mk (W_NS ++ "cols") [] none none []]

/-- Witness for C1 (amended) on a schema-ordered element: the computed
index lands between the `after`-group child and the `before`-group
child. -/
theorem insertion_index_bounds_witness :
    patcher_insertion_index exC1w_sectpr ≤ 1 ∧
    0 + 1 ≤ patcher_insertion_index exC1w_sectpr := by
  have h := insertion_index_bounds exC1w_sectpr
  refine ⟨h.1 1 (by decide) (by decide), ?_⟩
  refine h.2.1 0 (by decide) (by decide) ?_
  intro j hj hle
  have hj0 : j = 0 := Nat.le_zero.mp hle
  subst hj0
  have hget : (patcher_children exC1w_sectpr).get ⟨0, hj⟩ =
      XElem.mk (W_NS ++ "pgMar") [] none none [] := rfl
  rw [hget]
  decide

/-! ## C2: idempotence of the per-section insertion -/

/-- Removal prologue on a child list with at most one match leaves no
match. -/
theorem filter_removal_zero (p : XElem → Bool) (l : List XElem)
    (h : (l.filter p).length ≤ 1) :
    (((if l.any p then removeFirst p l else l)).filter p).length = 0 := by
  induction l with
  | nil => simp
  | cons x xs ih =>
    by_cases hx : p x = true
    · have hany : (x :: xs).any p = true := by simp [hx]
      have hrm : removeFirst p (x :: xs) = xs := by simp [removeFirst, hx]
      rw [if_pos hany, hrm]
      have hf : ((x :: xs).filter p).length = (xs.filter p).length + 1 := by
        simp [List.filter_cons, hx]
      omega
    · have hxf : p x = false := by simpa using hx
      have hany : (x :: xs).any p = xs.any p := by simp [hxf]
      have hrm : removeFirst p (x :: xs) = x :: removeFirst p xs := by
        simp [removeFirst, hxf]
      have hf : ((x :: xs).filter p) = xs.filter p := by
        simp [List.filter_cons, hxf]
      rw [hf] at h
      simp only [List.any_cons, hxf, Bool.false_or, hrm]
      by_cases hxs : xs.any p = true
      · rw [if_pos hxs]
        have hf2 : ((x :: removeFirst p xs).filter p) =
            (removeFirst p xs).filter p := by
          simp [List.filter_cons, hxf]
        rw [hf2]
        have ih2 := ih h
        rw [if_pos hxs] at ih2
        exact ih2
      · have hxsf : xs.any p = false := by simpa using hxs
        simp only [hxsf, Bool.false_eq_true, if_false]
        rw [hf]
        have hall : ∀ a ∈ xs, ¬ p a = true := by
          simpa [List.any_eq_false] using hxsf
        have hnil : xs.filter p = [] := List.filter_eq_nil_iff.mpr hall
        simp [hnil]

/-- Inserting anywhere contributes to the filtered length exactly as
prepending does. -/
theorem filter_insertAt (p : XElem → Bool) (a : XElem) (n : Nat)
    (l : List XElem) :
    ((insertAt n a l).filter p).length = ((a :: l).filter p).length := by
  induction l generalizing n with
  | nil => simp [insertAt]
  | cons x xs ih =>
    cases n with
    | zero => simp [insertAt]
    | succ m =>
      simp only [insertAt]
      have hm := ih m
      by_cases hx : p x = true <;> by_cases ha : p a = true <;>
        simp [List.filter_cons, hx, ha] at hm ⊢ <;> omega

/-- One application of `_insert_pgBorders_schema_order` to an element
with at most one `w:pgBorders` child leaves exactly one. -/
theorem insert_pgBorders_count (sp pg : XElem)
    (htag : pg.tag = pgBordersTag) (h : pgChildCount sp ≤ 1) :
    pgChildCount (_insert_pgBorders_schema_order sp pg) = 1 := by
  unfold _insert_pgBorders_schema_order
  simp only [pgChildCount, pgCount, XElem.children]
  rw [deepcopy_eq]
  rw [filter_insertAt]
  have h0 : ((patcher_children sp).filter
      (fun c => c.tag == pgBordersTag)).length = 0 := by
    have := filter_removal_zero (fun c => c.tag == pgBordersTag)
      sp.children (by simpa [pgChildCount, pgCount] using h)
    simpa [patcher_children] using this
  simp [List.filter_cons, htag, h0]

/-- C2: repeated application of the patcher's per-section insertion with
the same extracted `w:pgBorders` fragment is idempotent in count — a
section-properties element that starts with at most one fragment holds
exactly one after any positive number of applications. -/
theorem pgBorders_insert_idempotent (sp pg : XElem)
    (htag : pg.tag = pgBordersTag) (h : pgChildCount sp ≤ 1) :
    ∀ n, 1 ≤ n →
      pgChildCount
        ((fun s => _insert_pgBorders_schema_order s pg)^[n] sp) = 1 := by
  intro n hn
  induction n with
  | zero => omega
  | succ m ih =>
    rw [Function.iterate_succ_apply']
    by_cases hm : m = 0
    · subst hm
      simpa using insert_pgBorders_count sp pg htag h
    · have h1 : 1 ≤ m := Nat.one_le_iff_ne_zero.mpr hm
      exact insert_pgBorders_count _ pg htag (le_of_eq (ih h1))

/-- Empty section-properties element. -/
def exC2_sp : XElem := XElem.mk sectPrTag [] none none []

/-- Bare `w:pgBorders` fragment. -/
def exC2_pg : XElem := XElem.mk pgBordersTag [] none none []

/-- Witness for C2: two applications on an empty section-properties
element leave exactly one fragment. -/
theorem pgBorders_insert_idempotent_witness :
    (exC2_pg.tag = pgBordersTag ∧ pgChildCount exC2_sp ≤ 1 ∧ 1 ≤ 2) ∧
    pgChildCount
      ((fun s => _insert_pgBorders_schema_order s exC2_pg)^[2] exC2_sp) = 1 :=
  ⟨⟨rfl, by decide, by decide⟩,
    pgBorders_insert_idempotent exC2_sp exC2_pg rfl (by decide) 2 (by decide)⟩

/-! ## C3: no-op conditions of the patch -/

/-- C3: the patch returns false with the target untouched (`none`)
exactly when the source yields no `w:pgBorders` fragment under the
extraction rule, or the target body XML has no section-properties
element at body level or paragraph level; otherwise it returns true
with a rewrite (`some`). -/
theorem patch_false_iff (srcRoot tgtRoot : XElem) :
    patch_art_page_borders srcRoot tgtRoot = none ↔
      (_extract_pgBorders_from_source srcRoot = none ∨
        (findallBodySectPr tgtRoot = [] ∧ findallParaSectPr tgtRoot = [])) := by
  cases hex : _extract_pgBorders_from_source srcRoot with
  | none => simp [patch_art_page_borders, hex]
  | some pg =>
    have hred : patch_art_page_borders srcRoot tgtRoot =
        _set_pgBorders_in_all_sections tgtRoot pg := by
      simp [patch_art_page_borders, hex]
    rw [hred]
    unfold _set_pgBorders_in_all_sections
    by_cases hcond : (findallBodySectPr tgtRoot).isEmpty = true ∧
        (findallParaSectPr tgtRoot).isEmpty = true
    · rw [if_pos hcond]
      simp only [List.isEmpty_iff] at hcond
      simp [hcond]
    · rw [if_neg hcond]
      simp only [List.isEmpty_iff] at hcond
      simp [hcond]


/-! ## C4: extraction rule -/

/-- Tag disequality, settled once for concrete evaluation. -/
theorem tag_ne_b_p : bodyTag ≠ pTag := by decide

/-- Tag disequality, settled once for concrete evaluation. -/
theorem tag_ne_b_pr : bodyTag ≠ pPrTag := by decide

/-- Tag disequality, settled once for concrete evaluation. -/
theorem tag_ne_b_s : bodyTag ≠ sectPrTag := by decide

/-- Tag disequality, settled once for concrete evaluation. -/
theorem tag_ne_b_g : bodyTag ≠ pgBordersTag := by decide

/-- Tag disequality, settled once for concrete evaluation. -/
theorem tag_ne_p_b : pTag ≠ bodyTag := by decide

/-- Tag disequality, settled once for concrete evaluation. -/
theorem tag_ne_p_pr : pTag ≠ pPrTag := by decide

/-- Tag disequality, settled once for concrete evaluation. -/
theorem tag_ne_p_s : pTag ≠ sectPrTag := by decide

/-- Tag disequality, settled once for concrete evaluation. -/
theorem tag_ne_p_g : pTag ≠ pgBordersTag := by decide

/-- Tag disequality, settled once for concrete evaluation. -/
theorem tag_ne_pr_b : pPrTag ≠ bodyTag := by decide

/-- Tag disequality, settled once for concrete evaluation. -/
theorem tag_ne_pr_p : pPrTag ≠ pTag := by decide

/-- Tag disequality, settled once for concrete evaluation. -/
theorem tag_ne_pr_s : pPrTag ≠ sectPrTag := by decide

/-- Tag disequality, settled once for concrete evaluation. -/
theorem tag_ne_pr_g : pPrTag ≠ pgBordersTag := by decide

/-- Tag disequality, settled once for concrete evaluation. -/
theorem tag_ne_s_b : sectPrTag ≠ bodyTag := by decide

/-- Tag disequality, settled once for concrete evaluation. -/
theorem tag_ne_s_p : sectPrTag ≠ pTag := by decide

/-- Tag disequality, settled once for concrete evaluation. -/
theorem tag_ne_s_pr : sectPrTag ≠ pPrTag := by decide

/-- Tag disequality, settled once for concrete evaluation. -/
theorem tag_ne_s_g : sectPrTag ≠ pgBordersTag := by decide

/-- Tag disequality, settled once for concrete evaluation. -/
theorem tag_ne_g_b : pgBordersTag ≠ bodyTag := by decide

/-- Tag disequality, settled once for concrete evaluation. -/
theorem tag_ne_g_p : pgBordersTag ≠ pTag := by decide

/-- Tag disequality, settled once for concrete evaluation. -/
theorem tag_ne_g_pr : pgBordersTag ≠ pPrTag := by decide

/-- Tag disequality, settled once for concrete evaluation. -/
theorem tag_ne_g_s : pgBordersTag ≠ sectPrTag := by decide

/-- Evaluation rule for the source extraction once the two findall
results are known. -/
theorem extract_of_findalls (root : XElem) (bs ps : List XElem)
    (hb : findallBodySectPr root = bs) (hp : findallParaSectPr root = ps) :
    _extract_pgBorders_from_source root =
      (match bs.getLast? with
      | some sp =>
        (match findChild pgBordersTag sp with
         | some pg => some pg
         | none =>
            match ps.getLast? with
            | some sp2 => findChild pgBordersTag sp2
            | none => none)
      | none =>
        match ps.getLast? with
        | some sp2 => findChild pgBordersTag sp2
        | none => none) := by
  rw [← hb, ← hp]
  simp only [_extract_pgBorders_from_source, _extract_body_step,
    _extract_para_step]
  generalize (findallBodySectPr root).getLast? = ob
  generalize (findallParaSectPr root).getLast? = op
  cases ob with
  | none => cases op <;> rfl
  | some sp =>
    generalize findChild pgBordersTag sp = oc
    cases oc with
    | none => cases op <;> rfl
    | some pg => rfl

/-- Evaluation rule for the claimed extraction once the two findall
results are known. -/
theorem spec_extract_of_findalls (root : XElem) (bs ps : List XElem)
    (hb : findallBodySectPr root = bs) (hp : findallParaSectPr root = ps) :
    spec_extract_rule root =
      (match bs.getLast? with
      | some sp =>
        (match findChild pgBordersTag sp with
         | some pg => some pg
         | none =>
            match (ps.filter
                (fun sp2 => (findChild pgBordersTag sp2).isSome)).getLast? with
            | some sp2 => findChild pgBordersTag sp2
            | none => none)
      | none =>
        match (ps.filter
            (fun sp2 => (findChild pgBordersTag sp2).isSome)).getLast? with
        | some sp2 => findChild pgBordersTag sp2
        | none => none) := by
  rw [← hb, ← hp]
  simp only [spec_extract_rule, spec_para_fallback_rule]

/-- Bare `w:pgBorders` fragment inside the first paragraph's
section-properties element. -/
def exC4_pg : XElem := XElem.mk pgBordersTag [] none none []

/-- Paragraph-embedded section-properties element holding the
fragment. -/
def exC4_sect1 : XElem := XElem.mk sectPrTag [] none none [exC4_pg]

/-- Paragraph-embedded section-properties element with no fragment. -/
def exC4_sect2 : XElem := XElem.mk sectPrTag [] none none []

/-- First paragraph of the counterexample document. -/
def exC4_p1 : XElem :=
  XElem.mk pTag [] none none [XElem.mk pPrTag [] none none [exC4_sect1]]

/-- Second (last) paragraph of the counterexample document. -/
def exC4_p2 : XElem :=
  XElem.mk pTag [] none none [XElem.mk pPrTag [] none none [exC4_sect2]]

/-- Counterexample document: no body-level section-properties element;
two paragraph-embedded ones, only the first of which holds a
fragment. -/
def exC4_root : XElem :=
  XElem.mk (W_NS ++ "document") [] none none
    [XElem.mk bodyTag [] none none [exC4_p1, exC4_p2]]

/-- Document-order node scan of the counterexample document. -/
theorem exC4_desc :
    descendantsList exC4_root.children =
      [XElem.mk bodyTag [] none none [exC4_p1, exC4_p2],
       exC4_p1, XElem.mk pPrTag [] none none [exC4_sect1], exC4_sect1, exC4_pg,
       exC4_p2, XElem.mk pPrTag [] none none [exC4_sect2], exC4_sect2] := by
  simp [descendantsList, exC4_root, exC4_p1, exC4_p2, exC4_sect1, exC4_sect2,
    exC4_pg, XElem.children]

/-- The counterexample document has no body-level section-properties
element. -/
theorem exC4_body : findallBodySectPr exC4_root = [] := by
  unfold findallBodySectPr
  rw [exC4_desc]
  simp [exC4_p1, exC4_p2, exC4_sect1, exC4_sect2, exC4_pg, XElem.tag,
    XElem.children, tag_ne_p_b, tag_ne_pr_b, tag_ne_s_b, tag_ne_g_b,
    tag_ne_p_s, tag_ne_pr_s, tag_ne_g_s, tag_ne_b_s]

/-- The counterexample document has exactly its two paragraph-embedded
section-properties elements. -/
theorem exC4_para : findallParaSectPr exC4_root = [exC4_sect1, exC4_sect2] := by
  unfold findallParaSectPr
  rw [exC4_desc]
  simp [exC4_p1, exC4_p2, exC4_sect1, exC4_sect2, exC4_pg, XElem.tag,
    XElem.children, tag_ne_b_p, tag_ne_pr_p, tag_ne_s_p, tag_ne_g_p,
    tag_ne_s_pr, tag_ne_g_pr, tag_ne_b_pr, tag_ne_p_pr, tag_ne_g_s]

/-- C4 counterexample: on a source whose only `w:pgBorders` fragment
sits in the first of two paragraph-embedded section-properties
elements (and which has no body-level one), the source function
extracts nothing — it consults only the very last paragraph-level
element — while the claimed rule, the last paragraph-embedded element
*that contains* a fragment, extracts the fragment. -/
theorem extract_rule_counterexample :
    _extract_pgBorders_from_source exC4_root = none ∧
    spec_extract_rule exC4_root = some exC4_pg := by
  constructor
  · rw [extract_of_findalls exC4_root [] [exC4_sect1, exC4_sect2] exC4_body
      exC4_para]
    simp [findChild, exC4_sect2, XElem.children]
  · rw [spec_extract_of_findalls exC4_root [] [exC4_sect1, exC4_sect2]
      exC4_body exC4_para]
    simp [findChild, exC4_sect1, exC4_sect2, exC4_pg, XElem.children,
      XElem.tag]

/-- C4 (amended): extraction takes the last body-level
section-properties element and uses its fragment when it has one;
otherwise it takes the last paragraph-embedded section-properties
element and uses its fragment when it has one; otherwise it returns
nothing — the source function coincides with this rule on every
document. -/
theorem extract_rule_amended (root : XElem) :
    _extract_pgBorders_from_source root = amended_extract_rule root := by
  simp only [_extract_pgBorders_from_source, _extract_body_step,
    _extract_para_step, amended_extract_rule]
  generalize (findallBodySectPr root).getLast? = ob
  generalize (findallParaSectPr root).getLast? = op
  cases ob with
  | none => cases op <;> rfl
  | some sp =>
    dsimp only
    generalize findChild pgBordersTag sp = oc
    cases oc with
    | none => cases op <;> rfl
    | some pg => rfl

/-! ## C8: archive rewrite integrity and atomic replacement -/

/-- C8: the rewrite loop keeps every entry name in place, carries every
entry other than `word/document.xml` over byte-identically, replaces
`word/document.xml` with the serialized mutated tree, and the only
file-system states observable at the target path during the
write-to-sibling-temp-then-rename sequence hold either the full old
archive or the full new archive. -/
theorem archive_rewrite_integrity (ar : Archive) (root : XElem)
    (targetPath : String) :
    ((rewriteArchive ar (ET_tostring root)).map Prod.fst = ar.map Prod.fst) ∧
    (∀ (i : Nat) (e : String × String), ar[i]? = some e →
        e.1 ≠ "word/document.xml" →
        (rewriteArchive ar (ET_tostring root))[i]? = some e) ∧
    (∀ (i : Nat) (e : String × String), ar[i]? = some e →
        e.1 = "word/document.xml" →
        (rewriteArchive ar (ET_tostring root))[i]? =
          some (e.1, ET_tostring root)) ∧
    (∀ s ∈ atomicRewriteStates targetPath ar
        (rewriteArchive ar (ET_tostring root)),
      lookupFile targetPath s = some ar ∨
      lookupFile targetPath s = some (rewriteArchive ar (ET_tostring root))) := by
  refine ⟨?_, ?_, ?_, ?_⟩
  · unfold rewriteArchive
    rw [List.map_map]
    apply List.map_congr_left
    intro e _
    by_cases h : e.1 = "word/document.xml" <;> simp [h]
  · intro i e hi hne
    unfold rewriteArchive
    rw [List.getElem?_map, hi]
    simp [hne]
  · intro i e hi heq
    unfold rewriteArchive
    rw [List.getElem?_map, hi]
    simp [heq]
  · intro s hs
    unfold atomicRewriteStates at hs
    simp only [List.mem_cons, List.not_mem_nil, or_false] at hs
    rcases hs with rfl | rfl | rfl
    · left
      simp [lookupFile, List.find?]
    · left
      simp [lookupFile, List.find?]
    · right
      simp [lookupFile, List.find?]

/-- Two-entry archive used as the C8 witness. -/
def exC8_ar : Archive :=
  [("word/media/image1.png", "IMGBYTES"), ("word/document.xml", "OLDXML")]

/-- Mutated tree used as the C8 witness. -/
def exC8_root : XElem := XElem.mk (W_NS ++ "document") [] none none []

/-- Witness for C8 on a concrete two-entry archive: the media entry is
carried over unchanged, the body entry is replaced with the serialized
tree, and the mid-rewrite state still shows the old archive at the
target path. -/
theorem archive_rewrite_integrity_witness :
    (exC8_ar[0]? = some ("word/media/image1.png", "IMGBYTES") ∧
      "word/media/image1.png" ≠ "word/document.xml" ∧
      exC8_ar[1]? = some ("word/document.xml", "OLDXML")) ∧
    ((rewriteArchive exC8_ar (ET_tostring exC8_root))[0]? =
        some ("word/media/image1.png", "IMGBYTES") ∧
      (rewriteArchive exC8_ar (ET_tostring exC8_root))[1]? =
        some ("word/document.xml", ET_tostring exC8_root) ∧
      (lookupFile "report.docx"
          [("report.docx", exC8_ar),
           ("report.docx" ++ ".tmp",
             rewriteArchive exC8_ar (ET_tostring exC8_root))] =
          some exC8_ar ∨
        lookupFile "report.docx"
          [("report.docx", exC8_ar),
           ("report.docx" ++ ".tmp",
             rewriteArchive exC8_ar (ET_tostring exC8_root))] =
          some (rewriteArchive exC8_ar (ET_tostring exC8_root)))) :=
  ⟨⟨rfl, by decide, rfl⟩,
    (archive_rewrite_integrity exC8_ar exC8_root "report.docx").2.1 0 _ rfl
      (by decide),
    (archive_rewrite_integrity exC8_ar exC8_root "report.docx").2.2.1 1 _ rfl
      rfl,
    (archive_rewrite_integrity exC8_ar exC8_root "report.docx").2.2.2 _
      (by simp [atomicRewriteStates])⟩

/-! ## C10: deep copy is a fresh structural copy -/

/-- The allocation counter never decreases. -/
theorem dcIdsList_counter_le (n : Nat) (l : List XElemId) :
    n ≤ (dcIdsList n l).2 := by
  induction n, l using dcIdsList.induct with
  | case1 n => simp [dcIdsList]
  | case2 n j t a tx tl cs rest r1 ihcs ihrest =>
    have hr : r1 = dcIdsList (n + 1) cs := rfl
    rw [hr] at ihrest
    simp only [dcIdsList]
    omega

/-- The copy built by `dcIdsList` has the same structural content. -/
theorem dcIdsList_strip (n : Nat) (l : List XElemId) :
    stripList (dcIdsList n l).1 = stripList l := by
  induction n, l using dcIdsList.induct with
  | case1 n => simp [dcIdsList]
  | case2 n j t a tx tl cs rest r1 ihcs ihrest =>
    have hr : r1 = dcIdsList (n + 1) cs := rfl
    rw [hr] at ihrest
    simp [dcIdsList, stripList, ihcs, ihrest]

/-- Every id in the copy built by `dcIdsList` is at least the starting
counter. -/
theorem dcIdsList_ids_ge (n : Nat) (l : List XElemId) :
    ∀ i ∈ idsList (dcIdsList n l).1, n ≤ i := by
  induction n, l using dcIdsList.induct with
  | case1 n => simp [dcIdsList, idsList]
  | case2 n j t a tx tl cs rest r1 ihcs ihrest =>
    intro i hi
    have hr : r1 = dcIdsList (n + 1) cs := rfl
    rw [hr] at ihrest
    simp only [dcIdsList, idsList, List.mem_cons, List.mem_append] at hi
    rcases hi with rfl | hi | hi
    · exact le_refl i
    · exact le_trans (Nat.le_succ n) (ihcs i hi)
    · have h2 := ihrest i hi
      have h1 := dcIdsList_counter_le (n + 1) cs
      omega

/-- C10: on a tree whose object ids all lie below the allocation
counter, `_deepcopy` returns a tree whose tag, attributes, text, tail
and children are structurally equal to the original's (ids forgotten),
and which shares no object — no id, of the root or of any subelement —
with the original. -/
theorem deepcopy_alloc_fresh_copy (e : XElemId) (fresh : Nat)
    (hfresh : ∀ i ∈ idsOfTree e, i < fresh) :
    stripIds (_deepcopy_alloc e fresh).1 = stripIds e ∧
    ∀ i ∈ idsOfTree (_deepcopy_alloc e fresh).1, i ∉ idsOfTree e := by
  cases e with
  | mk j t a tx tl cs =>
    constructor
    · simp [_deepcopy_alloc, stripIds, dcIdsList_strip]
    · intro i hi hmem
      have hlt := hfresh i hmem
      simp only [_deepcopy_alloc, idsOfTree, List.mem_cons] at hi
      rcases hi with rfl | hi
      · omega
      · have := dcIdsList_ids_ge (fresh + 1) cs i hi
        omega

/-- Two-node identified tree used as the C10 witness. -/
def exC10_tree : XElemId :=
  XElemId.mk 0 sectPrTag [] none none
    [XElemId.mk 1 pgBordersTag [] none none []]

/-- Witness for C10 on a two-node tree with ids 0 and 1, copied with
the allocation counter at 5. -/
theorem deepcopy_alloc_fresh_copy_witness :
    (∀ i ∈ idsOfTree exC10_tree, i < 5) ∧
    (stripIds (_deepcopy_alloc exC10_tree 5).1 = stripIds exC10_tree ∧
      ∀ i ∈ idsOfTree (_deepcopy_alloc exC10_tree 5).1,
        i ∉ idsOfTree exC10_tree) := by
  have hfr : ∀ i ∈ idsOfTree exC10_tree, i < 5 := by
    intro i hi
    simp [exC10_tree, idsOfTree, idsList] at hi
    omega
  exact ⟨hfr, deepcopy_alloc_fresh_copy exC10_tree 5 hfr⟩

/-! ## Supporting fact: extracted fragments carry the `w:pgBorders` tag -/

/-- A child found by tag carries that tag. -/
theorem findChild_tag (tg : String) (e : XElem) (pg : XElem)
    (h : findChild tg e = some pg) : pg.tag = tg := by
  unfold findChild at h
  have := List.find?_some h
  simpa using this

/-- Whatever `_extract_pgBorders_from_source` returns was located by a
`find` on the `w:pgBorders` tag, so it carries that tag; this grounds
the tag hypothesis of the idempotence theorem. -/
theorem extract_tag (root : XElem) (pg : XElem)
    (h : _extract_pgBorders_from_source root = some pg) :
    pg.tag = pgBordersTag := by
  unfold _extract_pgBorders_from_source at h
  cases hb : _extract_body_step root with
  | some pg2 =>
    rw [hb] at h
    simp only [Option.some.injEq] at h
    subst h
    unfold _extract_body_step at hb
    cases hl : (findallBodySectPr root).getLast? with
    | none =>
      rw [hl] at hb
      simp at hb
    | some sp =>
      rw [hl] at hb
      exact findChild_tag _ _ _ hb
  | none =>
    rw [hb] at h
    unfold _extract_para_step at h
    cases hl : (findallParaSectPr root).getLast? with
    | none =>
      rw [hl] at h
      simp at h
    | some sp =>
      rw [hl] at h
      exact findChild_tag _ _ _ h
